import Mathlib

/-!
Verification development for the court-document parsing core
(`parse_court_docs.py`): a shallow embedding of the string-processing
pipeline (keyword tables, regex recognizers, the two-pass events-table
parser and the per-file orchestrator) as executable Lean functions over
`List Char`, together with theorems about the embedded code.

Conventions of the embedding:
* Python strings are modelled as `List Char`; ASCII semantics are used for
  case folding, whitespace and word characters (the repository's inputs are
  OCR text in the ASCII range).
* Python dicts that are built once and then only read are modelled as
  association lists in insertion order with first-hit lookup.
* The specific regular expressions used by the source are compiled by hand
  into deterministic matchers that reproduce leftmost-first backtracking
  semantics for exactly those patterns.
* Python exceptions (the possible `UnboundLocalError` in the streaming
  block parse) are modelled with `Except String`.
-/

/-- ASCII model of Python's whitespace class `\s` (and of the characters
stripped by `str.strip`). -/
def pyIsSpace (c : Char) : Bool :=
  c = ' ' || c = '\t' || c = '\n' || c = '\r' || c = '\x0b' || c = '\x0c'

/-- Decimal digit, Python `\d` (ASCII). -/
def digitChar (c : Char) : Bool := '0' ≤ c && c ≤ '9'

/-- ASCII letter. -/
def alphaChar (c : Char) : Bool :=
  ('A' ≤ c && c ≤ 'Z') || ('a' ≤ c && c ≤ 'z')

/-- Uppercase ASCII letter, the class `[A-Z]`. -/
def upperAZ (c : Char) : Bool := 'A' ≤ c && c ≤ 'Z'

/-- Python `\w` word character (ASCII model): letter, digit or underscore. -/
def wordChar (c : Char) : Bool := alphaChar c || digitChar c || c = '_'

/-- ASCII lower-casing of one character (model of `str.lower`). -/
def lowerChar (c : Char) : Char :=
  if 'A' ≤ c ∧ c ≤ 'Z' then Char.ofNat (c.toNat + 32) else c

/-- ASCII upper-casing of one character (model of `str.upper`). -/
def upperChar (c : Char) : Char :=
  if 'a' ≤ c ∧ c ≤ 'z' then Char.ofNat (c.toNat - 32) else c

/-- `str.lower` (ASCII model). -/
def lowerStr (s : List Char) : List Char := s.map lowerChar

/-- `str.upper` (ASCII model). -/
def upperStr (s : List Char) : List Char := s.map upperChar

/-- `str.rstrip()`. -/
def rstripStr (s : List Char) : List Char :=
  (s.reverse.dropWhile pyIsSpace).reverse

/-- `str.strip()`. -/
def stripStr (s : List Char) : List Char :=
  rstripStr (s.dropWhile pyIsSpace)

/-- Python's substring test `needle in hay`. -/
def substrOf (needle hay : List Char) : Bool :=
  if needle.isPrefixOf hay then true
  else
    match hay with
    | [] => false
    | _ :: t => substrOf needle t

/-- Lookup in an insertion-ordered dict model: `d.get(k, default)`. -/
def dictGet (d : List (List Char × List Char)) (k dflt : List Char) : List Char :=
  match d.find? (fun kv => kv.1 = k) with
  | some kv => kv.2
  | none => dflt

/-- Line-break characters recognized by Python `str.splitlines`
(ASCII/latin-1 part of the set; `\r\n` is merged by `splitlines` itself). -/
def lineBreakChar (c : Char) : Bool :=
  c = '\n' || c = '\r' || c = '\x0b' || c = '\x0c' ||
  c = '\x1c' || c = '\x1d' || c = '\x1e' ||
  c = Char.ofNat 0x85 || c = Char.ofNat 0x2028 || c = Char.ofNat 0x2029

/-- Helper for `splitlines`: accumulates the current line (reversed). -/
def splitlinesAux : List Char → List Char → List (List Char)
  | [], acc => if acc.isEmpty then [] else [acc.reverse]
  | '\r' :: '\n' :: cs, acc => acc.reverse :: splitlinesAux cs []
  | c :: cs, acc =>
    if lineBreakChar c then acc.reverse :: splitlinesAux cs []
    else splitlinesAux cs (c :: acc)

/-- Python `str.splitlines()`. -/
def splitlines (s : List Char) : List (List Char) := splitlinesAux s []

/-! ### Regex machinery

Each compiled pattern of the source is embedded as a position matcher
`Option Char → List Char → Option (List Char)`: given the character just
before the current position (for `\b`) and the rest of the text, it returns
the text of `m.group(0)` (resp. the relevant group) when the pattern
matches at this position.  `re.search` is the leftmost such success. -/

/-- Leftmost-match scan of a position matcher over the text (`re.search`). -/
def scanSearch (m : Option Char → List Char → Option (List Char)) :
    Option Char → List Char → Option (List Char)
  | prev, s =>
    match m prev s with
    | some r => some r
    | none =>
      match s with
      | [] => none
      | c :: cs => scanSearch m (some c) cs

/-- `first_match(patterns, text)`: the `group(0)` of the first pattern in
list order that matches anywhere, else the empty string. -/
def first_match (ms : List (Option Char → List Char → Option (List Char)))
    (s : List Char) : List Char :=
  match ms with
  | [] => []
  | m :: rest =>
    match scanSearch m none s with
    | some r => r
    | none => first_match rest s

/-- Take exactly `n` leading characters of class `p`. -/
def takeExactClass (p : Char → Bool) : Nat → List Char → Option (List Char × List Char)
  | 0, s => some ([], s)
  | _ + 1, [] => none
  | n + 1, c :: cs =>
    if p c then
      match takeExactClass p n cs with
      | some (d, r) => some (c :: d, r)
      | none => none
    else none

/-- Backtracking over a bounded counted repetition `p{..}`: try the given
lengths in order (greedy order = longest first), continuing with `k`;
the first success wins. -/
def tryLens (p : Char → Bool) (lens : List Nat) (s : List Char)
    (k : List Char → List Char → Option (List Char)) : Option (List Char) :=
  match lens with
  | [] => none
  | n :: ns =>
    match takeExactClass p n s with
    | some (d, r) =>
      match k d r with
      | some out => some out
      | none => tryLens p ns s k
    | none => tryLens p ns s k

/-- `\b` before a position whose pattern continues with a word character:
holds iff the previous character is absent or not a word character. -/
def bdryBefore : Option Char → Bool
  | none => true
  | some c => !(wordChar c)

/-- `\b` after a match that ends in a word character: holds iff the next
character is absent or not a word character. -/
def bdryAfter : List Char → Bool
  | [] => true
  | c :: _ => !(wordChar c)

/-- `DATE_PATTERNS[0]`: `\b(\d{4}-\d{2}-\d{2})\b`. -/
def matchDateISO (prev : Option Char) (s : List Char) : Option (List Char) :=
  if bdryBefore prev then
    match takeExactClass digitChar 4 s with
    | some (d1, '-' :: r1) =>
      match takeExactClass digitChar 2 r1 with
      | some (d2, '-' :: r2) =>
        match takeExactClass digitChar 2 r2 with
        | some (d3, r3) =>
          if bdryAfter r3 then some (d1 ++ '-' :: d2 ++ '-' :: d3) else none
        | _ => none
      | _ => none
    | _ => none
  else none

/-- `DATE_PATTERNS[1]`: `\b(\d{1,2}/\d{1,2}/\d{2,4})\b`. -/
def matchDateUS (prev : Option Char) (s : List Char) : Option (List Char) :=
  if bdryBefore prev then
    tryLens digitChar [2, 1] s fun d1 r1 =>
      match r1 with
      | '/' :: r2 =>
        tryLens digitChar [2, 1] r2 fun d2 r3 =>
          match r3 with
          | '/' :: r4 =>
            tryLens digitChar [4, 3, 2] r4 fun d3 r5 =>
              if bdryAfter r5 then some (d1 ++ '/' :: d2 ++ '/' :: d3) else none
          | _ => none
      | _ => none
  else none

/-- `DATE_PATTERNS[2]`: `\b([A-Za-z]{3,9}\s+\d{1,2},\s*\d{4})\b`. -/
def matchDateMonthName (prev : Option Char) (s : List Char) : Option (List Char) :=
  if bdryBefore prev then
    tryLens alphaChar [9, 8, 7, 6, 5, 4, 3] s fun a1 r1 =>
      let w1 := r1.takeWhile pyIsSpace
      if w1.isEmpty then none
      else
        tryLens digitChar [2, 1] (r1.drop w1.length) fun d1 r2 =>
          match r2 with
          | ',' :: r3 =>
            let w2 := r3.takeWhile pyIsSpace
            match takeExactClass digitChar 4 (r3.drop w2.length) with
            | some (d2, r4) =>
              if bdryAfter r4 then some (a1 ++ w1 ++ d1 ++ ',' :: w2 ++ d2) else none
            | none => none
          | _ => none
  else none

/-- `DATE_PATTERNS[3]`: `\b(\d{1,2}\s+[A-Za-z]{3,9}\s+\d{4})\b`. -/
def matchDateDayMonth (prev : Option Char) (s : List Char) : Option (List Char) :=
  if bdryBefore prev then
    tryLens digitChar [2, 1] s fun d1 r1 =>
      let w1 := r1.takeWhile pyIsSpace
      if w1.isEmpty then none
      else
        tryLens alphaChar [9, 8, 7, 6, 5, 4, 3] (r1.drop w1.length) fun a1 r2 =>
          let w2 := r2.takeWhile pyIsSpace
          if w2.isEmpty then none
          else
            match takeExactClass digitChar 4 (r2.drop w2.length) with
            | some (d2, r3) =>
              if bdryAfter r3 then some (d1 ++ w1 ++ a1 ++ w2 ++ d2) else none
            | none => none
  else none

/-- `DATE_PATTERNS` in source order. -/
def DATE_PATTERNS : List (Option Char → List Char → Option (List Char)) :=
  [matchDateISO, matchDateUS, matchDateMonthName, matchDateDayMonth]

/-- Case-insensitive literal: drop `lit` (given lowercased) from the front
of the text, comparing case-insensitively; `none` if it is not a prefix. -/
def dropLitCI : List Char → List Char → Option (List Char)
  | [], s => some s
  | _ :: _, [] => none
  | c :: cs, x :: xs => if lowerChar x = c then dropLitCI cs xs else none

/-- `CASE_PATTERNS[0]`: `\d{2}-[A-Z]{2}-\d{4}`. -/
def matchCase1 (_ : Option Char) (s : List Char) : Option (List Char) :=
  match takeExactClass digitChar 2 s with
  | some (d1, '-' :: r1) =>
    match takeExactClass upperAZ 2 r1 with
    | some (u1, '-' :: r2) =>
      match takeExactClass digitChar 4 r2 with
      | some (d2, _) => some (d1 ++ '-' :: u1 ++ '-' :: d2)
      | none => none
    | _ => none
  | _ => none

/-- `CASE_PATTERNS[1]`: `\d{4}-\d{6,}-[A-Z]{2}`. -/
def matchCase2 (_ : Option Char) (s : List Char) : Option (List Char) :=
  match takeExactClass digitChar 4 s with
  | some (d1, '-' :: r1) =>
    let run := r1.takeWhile digitChar
    if run.length < 6 then none
    else
      match r1.drop run.length with
      | '-' :: r2 =>
        match takeExactClass upperAZ 2 r2 with
        | some (u1, _) => some (d1 ++ '-' :: run ++ '-' :: u1)
        | none => none
      | _ => none
  | _ => none

/-- `CASE_PATTERNS[2]`: `\d{4}-\d{6,}-\s*[A-Z]{2}`. -/
def matchCase3 (_ : Option Char) (s : List Char) : Option (List Char) :=
  match takeExactClass digitChar 4 s with
  | some (d1, '-' :: r1) =>
    let run := r1.takeWhile digitChar
    if run.length < 6 then none
    else
      match r1.drop run.length with
      | '-' :: r2 =>
        let ws := r2.takeWhile pyIsSpace
        match takeExactClass upperAZ 2 (r2.drop ws.length) with
        | some (u1, _) => some (d1 ++ '-' :: run ++ '-' :: ws ++ u1)
        | none => none
      | _ => none
  | _ => none

/-- `CASE_PATTERNS[3]`: `DEMO-\d{4}-\d{4}`. -/
def matchCase4 (_ : Option Char) (s : List Char) : Option (List Char) :=
  if ("DEMO-".data).isPrefixOf s then
    match takeExactClass digitChar 4 (s.drop 5) with
    | some (d1, '-' :: r1) =>
      match takeExactClass digitChar 4 r1 with
      | some (d2, _) => some ("DEMO-".data ++ d1 ++ '-' :: d2)
      | none => none
    | _ => none
  else none

/-- `CASE_PATTERNS` in source order. -/
def CASE_PATTERNS : List (Option Char → List Char → Option (List Char)) :=
  [matchCase1, matchCase2, matchCase3, matchCase4]

/-- The labeled header pattern `Case ID\s+(\d{4}-\d{6,}-[A-Z]{2})` with
`re.I`; returns `group(1)`. -/
def matchCaseLabeled (_ : Option Char) (s : List Char) : Option (List Char) :=
  match dropLitCI ("case id".data) s with
  | none => none
  | some r =>
    let ws := r.takeWhile pyIsSpace
    if ws.isEmpty then none
    else
      match takeExactClass digitChar 4 (r.drop ws.length) with
      | some (d1, '-' :: r1) =>
        let run := r1.takeWhile digitChar
        if run.length < 6 then none
        else
          match r1.drop run.length with
          | '-' :: r2 =>
            match takeExactClass alphaChar 2 r2 with
            | some (u1, _) => some (d1 ++ '-' :: run ++ '-' :: u1)
            | none => none
          | _ => none
      | _ => none

/-- `extract_case_from_table_header`: scan the first 500 characters for a
case pattern, else for the labeled `Case ID` header. -/
def extract_case_from_table_header (text : List Char) : List Char :=
  let header := text.take 500
  let m := first_match CASE_PATTERNS header
  if !m.isEmpty then m
  else
    match scanSearch matchCaseLabeled none header with
    | some g => g
    | none => []

/-- `DOC_TYPE_KEYWORDS` as the insertion-ordered (substring, label) list. -/
def DOC_TYPE_KEYWORDS : List (List Char × List Char) :=
  [("petition".data, "Petition".data),
   ("order appoint".data, "Order appointing fiduciary".data),
   ("letters".data, "Letters of authority".data),
   ("hearing notice".data, "Hearing Notice".data),
   ("notice of hearing".data, "Hearing Notice".data),
   ("proof of service".data, "Proof of service".data),
   ("affidavit".data, "Affidavit".data),
   ("objection".data, "Objection".data),
   ("bond".data, "Bond".data),
   ("evaluation".data, "Evaluation".data)]

/-- `EVENT_MAP` as the insertion-ordered (label, code) list. -/
def EVENT_MAP : List (List Char × List Char) :=
  [("Petition".data, "PGII".data),
   ("Hearing Notice".data, "NOH".data),
   ("Proof of service".data, "POS".data),
   ("Objection".data, "OBJ".data),
   ("Order appointing fiduciary".data, "OAF".data),
   ("Letters of authority".data, "LET".data),
   ("Affidavit".data, "AFF".data),
   ("Bond".data, "BND".data),
   ("Evaluation".data, "EVAL".data)]

/-- `detect_document_type`: first keyword (in table order) that occurs in
the lowercased text wins. -/
def detect_document_type (text : List Char) : List Char :=
  let low := lowerStr text
  match DOC_TYPE_KEYWORDS.find? (fun kv => substrOf kv.1 low) with
  | some kv => kv.2
  | none => []

/-- Position matcher for `detect_party`'s pattern
`<label>[:\-]\s*([A-Z][A-Za-z.,\s]+)` with `re.I`; `lab` is the lowercased
label; returns `group(1)`. -/
def matchPartyAt (lab : List Char) (_ : Option Char) (s : List Char) :
    Option (List Char) :=
  match dropLitCI lab s with
  | none => none
  | some (c :: r1) =>
    if c = ':' || c = '-' then
      let ws := r1.takeWhile pyIsSpace
      match r1.drop ws.length with
      | h :: r3 =>
        if alphaChar h then
          let run := r3.takeWhile fun c => alphaChar c || c = '.' || c = ',' || pyIsSpace c
          if run.isEmpty then none else some (h :: run)
        else none
      | [] => none
    else none
  | some [] => none

/-- `detect_party(text, label)` (the label is supplied lowercased). -/
def detect_party (text lab : List Char) : List Char :=
  match scanSearch (matchPartyAt lab) none text with
  | some g => stripStr g
  | none => []

/-- Position matcher for `detect_judge`'s patterns
`<kw>[:\s]+([A-Z][A-Za-z.\s]+)` with `re.I`; returns `group(1)`. -/
def matchJudgeAt (kw : List Char) (_ : Option Char) (s : List Char) :
    Option (List Char) :=
  match dropLitCI kw s with
  | none => none
  | some r =>
    let sep := r.takeWhile fun c => c = ':' || pyIsSpace c
    if sep.isEmpty then none
    else
      match r.drop sep.length with
      | h :: r3 =>
        if alphaChar h then
          let run := r3.takeWhile fun c => alphaChar c || c = '.' || pyIsSpace c
          if run.isEmpty then none else some (h :: run)
        else none
      | [] => none

/-- `detect_judge`: try the `judge` pattern, then the `magistrate` one. -/
def detect_judge (text : List Char) : List Char :=
  match scanSearch (matchJudgeAt ("judge".data)) none text with
  | some g => stripStr g
  | none =>
    match scanSearch (matchJudgeAt ("magistrate".data)) none text with
    | some g => stripStr g
    | none => []

/-- `select_event_code`: exact lookup of the document-type label in
`EVENT_MAP`, defaulting to the empty string. -/
def select_event_code (doc_type : List Char) : List Char :=
  match EVENT_MAP.find? (fun kv => kv.1 = doc_type) with
  | some kv => kv.2
  | none => []

/-- `map_desc_to_code`: the dynamic override map (insertion-ordered, keys
matched as substrings of the uppercased description, first hit wins) and
then the fixed keyword chain.  A `None`/empty Python map is modelled by the
empty list (both skip the override loop). -/
def map_desc_to_code (desc : List Char)
    (dynamic_map : List (List Char × List Char)) : List Char :=
  let up := upperStr desc
  match dynamic_map.find? (fun kv => substrOf kv.1 up) with
  | some kv => kv.2
  | none =>
    if substrOf ("PETITION".data) up then "PGII".data
    else if substrOf ("NOTICE".data) up then "NOH".data
    else if substrOf ("PROOF".data) up then "POS".data
    else if substrOf ("ORDER".data) up then "OAF".data
    else if substrOf ("LETTER".data) up then "LET".data
    else if substrOf ("OBJECTION".data) up then "OBJ".data
    else []

/-- The event-code resolution used at all three extraction sites:
`select_event_code(d) or map_desc_to_code(d, m)` (Python `or`). -/
def resolve_event_code (doc_type : List Char)
    (desc_map : List (List Char × List Char)) : List Char :=
  let sel := select_event_code doc_type
  if !sel.isEmpty then sel else map_desc_to_code doc_type desc_map

/-! ### Pass A: the row regex `^\s*(\d{2}/\d{2}/\d{4})\s+(.+?)\s+(\d+)\s*$`

`re.match` anchors at the start.  `\s*` before a digit and the fixed-width
date are deterministic; the trailing `\s+(.+?)\s+(\d+)\s*$` is matched with
the engine's backtracking order: the first `\s+` greedy (longest first),
the lazy `.+?` shortest first. A suffix matches `\s+(\d+)\s*$` exactly when
it consists of one-or-more whitespace, one-or-more digits, then optional
whitespace to the end (the classes are disjoint, so that part is
deterministic). -/

/-- Match a suffix against `\s+(\d+)\s*$`, returning the digit group. -/
def tailMatch : List Char → Option (List Char)
  | [] => none
  | c :: cs =>
    if pyIsSpace c then
      let s1 := cs.dropWhile pyIsSpace
      let d := s1.takeWhile digitChar
      if d.isEmpty then none
      else if (s1.drop d.length).all pyIsSpace then some d else none
    else none

/-- Lazy `.+?`: the shortest nonempty description prefix whose remainder
matches `\s+(\d+)\s*$`; returns (description group, digit group). -/
def splitDescFrom : List Char → Option (List Char × List Char)
  | [] => none
  | c :: cs =>
    match tailMatch cs with
    | some d => some ([c], d)
    | none =>
      match splitDescFrom cs with
      | some (de, d) => some (c :: de, d)
      | none => none

/-- Greedy `\s+` backtracking: try consuming `j` whitespace characters for
`j = a, a-1, …, 1` (the caller passes `a` = the length of the leading
whitespace run) and take the first success of the lazy continuation. -/
def wsBacktrack : Nat → List Char → Option (List Char × List Char)
  | 0, _ => none
  | j + 1, r =>
    match splitDescFrom (r.drop (j + 1)) with
    | some res => some res
    | none => wsBacktrack j r

/-- The fixed-width date `\d{2}/\d{2}/\d{4}` at the start of the string. -/
def parseRowDate (s : List Char) : Option (List Char × List Char) :=
  match takeExactClass digitChar 2 s with
  | some (d1, '/' :: r1) =>
    match takeExactClass digitChar 2 r1 with
    | some (d2, '/' :: r2) =>
      match takeExactClass digitChar 4 r2 with
      | some (d3, r3) => some (d1 ++ '/' :: d2 ++ '/' :: d3, r3)
      | none => none
    | _ => none
  | _ => none

/-- `row_pattern.match(line)`: `(filed_date, desc, event_no)` groups. -/
def rowPatternMatch (line : List Char) : Option (List Char × List Char × List Char) :=
  let r0 := line.dropWhile pyIsSpace
  match parseRowDate r0 with
  | none => none
  | some (date, r) =>
    match wsBacktrack (r.takeWhile pyIsSpace).length r with
    | some (desc, num) => some (date, desc, num)
    | none => none

/-- The `ParsedDoc` dataclass. -/
structure ParsedDoc where
  file_name : List Char
  event_id : List Char
  document_id : List Char
  source_view : List Char
  case_number : List Char
  filed_date : List Char
  document_type : List Char
  party_petitioner : List Char
  party_respondent : List Char
  party_guardian : List Char
  event_type_code : List Char
  event_type_label : List Char
  judge : List Char
  low_confidence : List Char
  notes : List Char
deriving DecidableEq, Repr

/-- The per-call context of `parse_events_table`: its non-text arguments
plus the derived `low_conf_summary` flag. -/
structure TableCtx where
  base_case : List Char
  file_name : List Char
  vocab : List (List Char × List Char)
  low_conf_summary : Bool
  desc_map : List (List Char × List Char)
deriving DecidableEq, Repr

/-- Decimal rendering of a natural number. -/
def natToStr (n : Nat) : List Char := (Nat.repr n).data

/-- Python `f"{n:02d}"`. -/
def pad2 (n : Nat) : List Char :=
  let d := natToStr n
  if d.length < 2 then List.replicate (2 - d.length) '0' ++ d else d

/-- `pathlib.Path(name).stem` for a plain file name: the name without its
final `.suffix` (a lone leading dot does not count as a suffix). -/
def stem (s : List Char) : List Char :=
  let k := (s.reverse.takeWhile (fun c => c ≠ '.')).length
  if k = s.length then s
  else if s.length - k - 1 = 0 then s
  else s.take (s.length - k - 1)

/-- `"; ".join(notes)`. -/
def joinSep (sep : List Char) : List (List Char) → List Char
  | [] => []
  | [x] => x
  | x :: xs => x ++ sep ++ joinSep sep xs

/-- One record emitted by Pass A (source lines 238-267); `parsedLen` is
`len(parsed)` at emission time. -/
def mkRowRecord (ctx : TableCtx) (parsedLen : Nat)
    (filed_date desc event_no : List Char) : ParsedDoc :=
  let document_type := if (stripStr desc).isEmpty then "Unknown".data else stripStr desc
  let event_code := resolve_event_code document_type ctx.desc_map
  let event_label := dictGet ctx.vocab event_code document_type
  let text_is_short := document_type.length < 3
  let low_conf := if ctx.low_conf_summary || text_is_short then "yes".data else "no".data
  let notes :=
    joinSep ("; ".data)
      (["parsed from events table (row)".data] ++
        (if text_is_short then ["description short".data] else []))
  { file_name := ctx.file_name
    event_id :=
      if !event_no.isEmpty then event_no
      else ctx.base_case ++ '-' :: filed_date ++ '-' :: pad2 (parsedLen + 1)
    document_id := stem ctx.file_name ++ ".pdf".data
    source_view := "MiCourt_EventList".data
    case_number := ctx.base_case
    filed_date := filed_date
    document_type := document_type
    party_petitioner := []
    party_respondent := []
    party_guardian := []
    event_type_code := event_code
    event_type_label := event_label
    judge := []
    low_confidence := low_conf
    notes := notes }

/-- One Pass A loop iteration: skip non-matching lines, append a record
for matching ones. -/
def passAStep (ctx : TableCtx) (acc : List ParsedDoc) (line : List Char) :
    List ParsedDoc :=
  match rowPatternMatch line with
  | none => acc
  | some (d, de, n) => acc ++ [mkRowRecord ctx acc.length d de n]

/-- Pass A over the (already rstripped) lines. -/
def passA (ctx : TableCtx) (lines : List (List Char)) : List ParsedDoc :=
  lines.foldl (passAStep ctx) []

/-! ### Pass B: the streaming block parse

The loop walks the physical lines with an index that advances by at least
one line each iteration, so it is embedded as recursion over the remaining
suffix of the line list.  The Python local `current_desc` is first assigned
only inside the `description` branch (and re-assigned after each
`event no` emission); reading it in the `event no` branch before any
assignment raises `UnboundLocalError`.  It is therefore modelled as
`Option (List Char)` with `none` for the unbound state, and the whole pass
returns `Except String _`. -/

/-- `next_nonempty(start, arr)` on the remaining lines: the first line with
nonempty `strip`, stripped; the empty string when there is none. -/
def nextNonempty (ls : List (List Char)) : List Char :=
  match ls.dropWhile (fun l => (stripStr l).isEmpty) with
  | [] => []
  | l :: _ => stripStr l

/-- `label_stops` in source order. -/
def label_stops : List (List Char) :=
  [("event date".data), ("description".data), ("party/count".data),
   ("event no".data), ("event no.".data), ("comment".data), ("judge".data),
   ("attorney".data), ("next hearing".data), ("program/results".data),
   ("amount".data), ("disposition".data), ("category action".data),
   ("party action".data)]

/-- `str.startswith(tuple)`. -/
def startsWithAny (ps : List (List Char)) (s : List Char) : Bool :=
  ps.any (fun p => p.isPrefixOf s)

/-- The inner `while` of the `description` branch: collect stripped
following lines until a blank line, a stop label, or an embedded date;
returns the collected parts and the remaining lines (starting at the
breaking line, which is not consumed). -/
def gatherDesc : List (List Char) → List (List Char) × List (List Char)
  | [] => ([], [])
  | l :: ls =>
    let nxt := stripStr l
    if nxt.isEmpty || startsWithAny label_stops (lowerStr nxt) ||
        !(first_match DATE_PATTERNS nxt).isEmpty then
      ([], l :: ls)
    else
      let r := gatherDesc ls
      (nxt :: r.1, r.2)

theorem gatherDesc_rest_length (ls : List (List Char)) :
    (gatherDesc ls).2.length ≤ ls.length := by
  induction ls with
  | nil => simp [gatherDesc]
  | cons l ls ih =>
    simp only [gatherDesc]
    split
    · simp
    · simpa using Nat.le_succ_of_le ih

/-- The mutable state of Pass B. -/
structure BState where
  current_date : List Char
  current_desc : Option (List Char)
  pending : List (List Char × List Char)
  seq : Nat
  out : List ParsedDoc
deriving DecidableEq, Repr

/-- The record built by `emit_event` (source lines 305-323). -/
def mkBlockRecord (ctx : TableCtx)
    (filed_date_text desc_clean event_no_clean : List Char) : ParsedDoc :=
  let event_code := resolve_event_code desc_clean ctx.desc_map
  let event_label := dictGet ctx.vocab event_code desc_clean
  let text_is_short := desc_clean.length < 3
  let low_conf := if ctx.low_conf_summary || text_is_short then "yes".data else "no".data
  let notes :=
    joinSep ("; ".data)
      (["parsed from events table (block)".data] ++
        (if text_is_short then ["description short".data] else []))
  { file_name := ctx.file_name
    event_id := ctx.base_case ++ '-' :: filed_date_text ++ '-' :: event_no_clean
    document_id := stem ctx.file_name ++ ".pdf".data
    source_view := "MiCourt_EventList".data
    case_number := ctx.base_case
    filed_date := filed_date_text
    document_type := desc_clean
    party_petitioner := []
    party_respondent := []
    party_guardian := []
    event_type_code := event_code
    event_type_label := event_label
    judge := []
    low_confidence := low_conf
    notes := notes }

/-- `emit_event(desc_text, event_no_text, filed_date_text)`: appends one
record (and bumps `seq`) unless the date is empty, in which case the state
is returned unchanged. -/
def emit_event (ctx : TableCtx) (desc_text event_no_text filed_date_text : List Char)
    (st : BState) : BState :=
  if filed_date_text.isEmpty then st
  else
    let desc_clean := if (stripStr desc_text).isEmpty then "Unknown".data else stripStr desc_text
    let event_no_clean :=
      if (event_no_text.filter digitChar).isEmpty then pad2 st.seq
      else event_no_text.filter digitChar
    { st with
      out := st.out ++ [mkBlockRecord ctx filed_date_text desc_clean event_no_clean]
      seq := st.seq + 1 }

/-- The Python error raised when a local is read before assignment. -/
def unboundLocalMsg : String :=
  "UnboundLocalError: local variable referenced before assignment"

/-- The Pass B loop (source lines 326-379) over the remaining lines.

Structural recursion on a fuel counter so that the definition reduces in
the kernel: every iteration of the Python loop advances the index by at
least one line while the fuel drops by exactly one, so with initial fuel
`lines.length` (as `passB` passes) the fuel-exhausted arm is unreachable;
its value (`.ok st.out`, i.e. stop and return what was accumulated) is
immaterial. -/
def passBGo (ctx : TableCtx) : Nat → List (List Char) → BState → Except String (List ParsedDoc)
  | _, [], st => .ok st.out
  | 0, _ :: _, st => .ok st.out
  | fuel + 1, l :: ls, st =>
    let line := stripStr l
    let low := lowerStr line
    if line.isEmpty then passBGo ctx fuel ls st
    else if ("event date".data).isPrefixOf low then
      let val := nextNonempty ls
      let dv :=
        if !(first_match DATE_PATTERNS val).isEmpty then first_match DATE_PATTERNS val
        else first_match DATE_PATTERNS line
      passBGo ctx fuel ls (if dv.isEmpty then st else { st with current_date := dv })
    else if st.current_date.isEmpty && !(first_match DATE_PATTERNS line).isEmpty then
      passBGo ctx fuel ls { st with current_date := first_match DATE_PATTERNS line }
    else if ("description".data).isPrefixOf low then
      let g := gatherDesc ls
      let cd := joinSep (" ".data) g.1
      passBGo ctx fuel g.2
        { st with
          current_desc := some cd
          pending := if cd.isEmpty then st.pending else st.pending ++ [(st.current_date, cd)] }
    else if substrOf ("event no".data) low then
      let val := nextNonempty ls
      match st.pending with
      | p :: rest =>
        let st' := emit_event ctx p.2 val (if p.1.isEmpty then st.current_date else p.1)
          { st with pending := rest }
        passBGo ctx fuel ls { st' with current_desc := some [] }
      | [] =>
        match st.current_desc with
        | none => .error unboundLocalMsg
        | some cd =>
          let st' := emit_event ctx cd val st.current_date st
          passBGo ctx fuel ls { st' with current_desc := some [] }
    else passBGo ctx fuel ls st

/-- The Pass B loop at its call site: fuel is the number of lines. -/
def passB (ctx : TableCtx) (lines : List (List Char)) (st : BState) :
    Except String (List ParsedDoc) :=
  passBGo ctx lines.length lines st

/-- `(summary_row.get("low_confidence") or "").lower() == "yes"`. -/
def low_conf_of (summary_row : List (List Char × List Char)) : Bool :=
  lowerStr (dictGet summary_row ("low_confidence".data) []) == "yes".data

/-- The physical lines `[ln.rstrip() for ln in content.splitlines()]`. -/
def linesOf (content : List Char) : List (List Char) :=
  (splitlines content).map rstripStr

/-- The `TableCtx` assembled by `parse_events_table` from its arguments. -/
def ctxOf (base_case file_name : List Char)
    (vocab summary_row desc_map : List (List Char × List Char)) : TableCtx :=
  ⟨base_case, file_name, vocab, low_conf_of summary_row, desc_map⟩

/-- The initial Pass B state: no date, `current_desc` unbound, empty queue,
`seq = len(parsed) + 1`. -/
def initB (seq : Nat) : BState := ⟨[], none, [], seq, []⟩

/-- `parse_events_table` (both passes and the `< 30` gate); a Python
exception from Pass B is an `Except.error`. -/
def parse_events_table (content base_case : List Char)
    (vocab : List (List Char × List Char))
    (summary_row : List (List Char × List Char))
    (file_name : List Char)
    (desc_map : List (List Char × List Char)) : Except String (List ParsedDoc) :=
  let lines := linesOf content
  let ctx := ctxOf base_case file_name vocab summary_row desc_map
  let a := passA ctx lines
  if a.length < 30 then
    match passB ctx lines (initB (a.length + 1)) with
    | .ok b => .ok (a ++ b)
    | .error e => .error e
  else .ok a

/-! ### The orchestrator `parse_file_with_report`

A `Path` argument is modelled by the file's text content plus its base
name (`path.name`); `path.stem` is then `stem` of that name. -/

/-- The per-file diagnostic report dictionary. -/
structure Report where
  filename : List Char
  strategy_used : List Char
  events_found : Nat
  warnings : List (List Char)
deriving DecidableEq, Repr

/-- The case number computed by the orchestrator: whole-text scan, then
header scan, then `.replace(" ", "")`. -/
def case_number_of (content : List Char) : List Char :=
  let c := first_match CASE_PATTERNS content
  let c' := if c.isEmpty then extract_case_from_table_header content else c
  c'.filter (fun ch => ch ≠ ' ')

/-- `ocr_summary.get(f"{path.stem}.pdf", {})`. -/
def summary_row_of (ocr_summary : List (List Char × List (List Char × List Char)))
    (file_name : List Char) : List (List Char × List Char) :=
  match ocr_summary.find? (fun kv => kv.1 = stem file_name ++ ".pdf".data) with
  | some kv => kv.2
  | none => []

/-- The single fallback record of the single-document extractor
(source lines 424-464). -/
def fallback_record (content file_name : List Char)
    (vocab : List (List Char × List Char))
    (summary_row : List (List Char × List Char))
    (desc_map : List (List Char × List Char)) : ParsedDoc :=
  let case_number := case_number_of content
  let filed_date := first_match DATE_PATTERNS content
  let document_type := detect_document_type content
  let event_code := resolve_event_code document_type desc_map
  let low_conf_summary := low_conf_of summary_row
  let text_is_short := (stripStr content).length < 80
  let low_conf := if low_conf_summary || text_is_short then "yes".data else "no".data
  let notes :=
    joinSep ("; ".data)
      ((if case_number.isEmpty then ["case number not found".data] else []) ++
        (if text_is_short then ["very short text; manual check".data] else []) ++
        (if low_conf_summary then ["OCR low confidence".data] else []))
  { file_name := file_name
    event_id := []
    document_id := stem file_name ++ ".pdf".data
    source_view := "ocr_pipeline".data
    case_number := case_number
    filed_date := filed_date
    document_type := document_type
    party_petitioner := detect_party content ("petitioner".data)
    party_respondent := detect_party content ("respondent".data)
    party_guardian := detect_party content ("guardian".data)
    event_type_code := event_code
    event_type_label := dictGet vocab event_code []
    judge := detect_judge content
    low_confidence := low_conf
    notes := notes }

/-- The fallback warning string
`f"table strategy only found {n} events; using fallback"`. -/
def warnMsg (n : Nat) : List Char :=
  "table strategy only found ".data ++ natToStr n ++ " events; using fallback".data

/-- `parse_file_with_report` (source lines 395-471). -/
def parse_file_with_report (content file_name : List Char)
    (vocab : List (List Char × List Char))
    (ocr_summary : List (List Char × List (List Char × List Char)))
    (desc_map : List (List Char × List Char)) :
    Except String (List ParsedDoc × Report) :=
  let case_number := case_number_of content
  let summary_row := summary_row_of ocr_summary file_name
  if substrOf ("events".data) (lowerStr content) then
    match parse_events_table content case_number vocab summary_row file_name desc_map with
    | .error e => .error e
    | .ok table_rows =>
      if 10 ≤ table_rows.length then
        .ok (table_rows, ⟨file_name, "table".data, table_rows.length, []⟩)
      else
        .ok ([fallback_record content file_name vocab summary_row desc_map],
          ⟨file_name, "fallback".data, 1, [warnMsg table_rows.length]⟩)
  else
    .ok ([fallback_record content file_name vocab summary_row desc_map],
      ⟨file_name, "fallback".data, 1, []⟩)

/-! ## Claims -/

/-- C6: a description containing both `PETITION` and `NOTICE` (in either
order — only containment matters) resolves through the keyword chain, with
no dynamic override map supplied, to the petition code `PGII`. -/
theorem keyword_chain_petition_before_notice (desc : List Char)
    (h1 : substrOf ("PETITION".data) (upperStr desc) = true)
    (_h2 : substrOf ("NOTICE".data) (upperStr desc) = true) :
    map_desc_to_code desc [] = "PGII".data := by
  unfold map_desc_to_code
  simp [List.find?, h1]

theorem keyword_chain_petition_before_notice_witness :
    substrOf ("PETITION".data) (upperStr ("NOTICE AND PETITION".data)) = true ∧
    substrOf ("NOTICE".data) (upperStr ("NOTICE AND PETITION".data)) = true ∧
    map_desc_to_code ("NOTICE AND PETITION".data) [] = "PGII".data :=
  ⟨by decide, by decide,
    keyword_chain_petition_before_notice ("NOTICE AND PETITION".data)
      (by decide) (by decide)⟩

/-- The claimed resolution procedure, written from the spec's words
(§4.1): consult the ordered override map first (first key occurring as a
substring of the uppercased description wins), then the fixed ordered
keyword chain PETITION → NOTICE → PROOF → ORDER → LETTER → OBJECTION,
else the empty code. -/
def keyword_chain : List (List Char × List Char) :=
  [("PETITION".data, "PGII".data), ("NOTICE".data, "NOH".data),
   ("PROOF".data, "POS".data), ("ORDER".data, "OAF".data),
   ("LETTER".data, "LET".data), ("OBJECTION".data, "OBJ".data)]

/-- See `keyword_chain`: the claim's description-to-code resolution. -/
def claimed_resolution (desc : List Char)
    (dmap : List (List Char × List Char)) : List Char :=
  let up := upperStr desc
  match dmap.find? (fun kv => substrOf kv.1 up) with
  | some kv => kv.2
  | none =>
    match keyword_chain.find? (fun kv => substrOf kv.1 up) with
    | some kv => kv.2
    | none => []

/-- C1 counterexample: at the extraction sites the override map is *not*
consulted first — the exact `EVENT_MAP` lookup (`select_event_code`) wins.
For the description `Petition` with override map `{"PETITION": "ZZZ"}` the
extractors resolve to `PGII`, not to the override's `ZZZ` demanded by the
claim. -/
theorem extractor_resolution_ne_claimed :
    resolve_event_code ("Petition".data) [("PETITION".data, "ZZZ".data)] ≠
      claimed_resolution ("Petition".data) [("PETITION".data, "ZZZ".data)] := by
  decide

/-- C1 amended: `map_desc_to_code` itself follows the claimed procedure
(override map first, then the fixed chain, else empty); the extractors
consult it — and hence the override map — only when the exact lookup of the
full description in `EVENT_MAP` yields no code. -/
theorem map_desc_to_code_eq_claimed (desc : List Char)
    (dmap : List (List Char × List Char)) :
    map_desc_to_code desc dmap = claimed_resolution desc dmap ∧
    (select_event_code desc = [] →
      resolve_event_code desc dmap = claimed_resolution desc dmap) := by
  have h : map_desc_to_code desc dmap = claimed_resolution desc dmap := by
    unfold map_desc_to_code claimed_resolution
    cases h0 : List.find? (fun kv => substrOf kv.1 (upperStr desc)) dmap with
    | some kv => simp only [h0]
    | none =>
      simp only [h0, keyword_chain, List.find?]
      cases h1 : substrOf ("PETITION".data) (upperStr desc) <;>
        cases h2 : substrOf ("NOTICE".data) (upperStr desc) <;>
        cases h3 : substrOf ("PROOF".data) (upperStr desc) <;>
        cases h4 : substrOf ("ORDER".data) (upperStr desc) <;>
        cases h5 : substrOf ("LETTER".data) (upperStr desc) <;>
        cases h6 : substrOf ("OBJECTION".data) (upperStr desc) <;>
        simp [h1, h2, h3, h4, h5, h6]
  refine ⟨h, fun hsel => ?_⟩
  unfold resolve_event_code
  simp [hsel, h]

theorem map_desc_to_code_eq_claimed_witness :
    select_event_code ("PETITION GUARDIANSHIP".data) = [] ∧
    resolve_event_code ("PETITION GUARDIANSHIP".data)
        [("GUARDIANSHIP".data, "GDN".data)] =
      claimed_resolution ("PETITION GUARDIANSHIP".data)
        [("GUARDIANSHIP".data, "GDN".data)] :=
  ⟨by decide,
    (map_desc_to_code_eq_claimed ("PETITION GUARDIANSHIP".data)
        [("GUARDIANSHIP".data, "GDN".data)]).2 (by decide)⟩

/-- C9: `parse_events_table` is *not* total — an `event no` line reached
with an empty queue before any `description` line reads the never-assigned
local `current_desc`, raising `UnboundLocalError` (modelled as
`Except.error`). Concrete failing input: the two-line text
`"Event No.\n5"`. -/
theorem parse_events_table_unbound_local :
    parse_events_table ("Event No.\n5".data) [] [] [] ("doc1.txt".data) [] =
      .error unboundLocalMsg := by
  rfl

/-- C3: on the text `"events\nEvent No.\n5"` (which contains `events`, so
the table strategy runs) the orchestrator propagates Pass B's
`UnboundLocalError` and returns no record at all, contradicting the
at-least-one-record invariant. -/
theorem parse_file_with_report_can_fail :
    parse_file_with_report ("events\nEvent No.\n5".data) ("doc1.txt".data) [] [] [] =
      .error unboundLocalMsg := by
  rfl

/-- C8: extraction is deterministic — two runs on equal document text,
file name, vocabulary, OCR-summary table and override map produce equal
record sequences and equal reports.  The embedding makes this precise: the
orchestrator is a pure function of exactly these five inputs (the source
consults no other state, clock or randomness). -/
theorem parse_file_with_report_deterministic
    (content₁ content₂ fname₁ fname₂ : List Char)
    (vocab₁ vocab₂ dmap₁ dmap₂ : List (List Char × List Char))
    (ocr₁ ocr₂ : List (List Char × List (List Char × List Char)))
    (hc : content₁ = content₂) (hf : fname₁ = fname₂) (hv : vocab₁ = vocab₂)
    (ho : ocr₁ = ocr₂) (hd : dmap₁ = dmap₂) :
    parse_file_with_report content₁ fname₁ vocab₁ ocr₁ dmap₁ =
      parse_file_with_report content₂ fname₂ vocab₂ ocr₂ dmap₂ := by
  rw [hc, hf, hv, ho, hd]

theorem parse_file_with_report_deterministic_witness :
    parse_file_with_report ("events\n01/06/2025 PETITION 1".data)
        ("doc1.txt".data) [] [] [] =
      parse_file_with_report ("events\n01/06/2025 PETITION 1".data)
        ("doc1.txt".data) [] [] [] :=
  parse_file_with_report_deterministic _ _ _ _ _ _ _ _ _ _ rfl rfl rfl rfl rfl

/-- C4: Pass B executes iff Pass A produced strictly fewer than 30
records — the result is exactly Pass A's records when `len(parsed) ≥ 30`
(in particular at exactly 30), and Pass A's records followed by Pass B's
appended output when fewer (in particular at 29); in every successful
outcome Pass A's records form an unchanged prefix of the result. -/
theorem parse_events_table_pass_gate (content base_case file_name : List Char)
    (vocab summary_row desc_map : List (List Char × List Char)) :
    (parse_events_table content base_case vocab summary_row file_name desc_map =
      if (passA (ctxOf base_case file_name vocab summary_row desc_map)
            (linesOf content)).length < 30 then
        (passB (ctxOf base_case file_name vocab summary_row desc_map) (linesOf content)
            (initB ((passA (ctxOf base_case file_name vocab summary_row desc_map)
              (linesOf content)).length + 1))).map
          (fun b => passA (ctxOf base_case file_name vocab summary_row desc_map)
              (linesOf content) ++ b)
      else .ok (passA (ctxOf base_case file_name vocab summary_row desc_map)
          (linesOf content))) ∧
    ((passA (ctxOf base_case file_name vocab summary_row desc_map)
        (linesOf content)).length = 30 →
      parse_events_table content base_case vocab summary_row file_name desc_map =
        .ok (passA (ctxOf base_case file_name vocab summary_row desc_map)
          (linesOf content))) ∧
    ((passA (ctxOf base_case file_name vocab summary_row desc_map)
        (linesOf content)).length = 29 →
      parse_events_table content base_case vocab summary_row file_name desc_map =
        (passB (ctxOf base_case file_name vocab summary_row desc_map) (linesOf content)
            (initB 30)).map
          (fun b => passA (ctxOf base_case file_name vocab summary_row desc_map)
              (linesOf content) ++ b)) ∧
    (∀ out, parse_events_table content base_case vocab summary_row file_name desc_map =
        .ok out →
      ∃ t, out = passA (ctxOf base_case file_name vocab summary_row desc_map)
          (linesOf content) ++ t) := by
  have key : parse_events_table content base_case vocab summary_row file_name desc_map =
      if (passA (ctxOf base_case file_name vocab summary_row desc_map)
            (linesOf content)).length < 30 then
        (passB (ctxOf base_case file_name vocab summary_row desc_map) (linesOf content)
            (initB ((passA (ctxOf base_case file_name vocab summary_row desc_map)
              (linesOf content)).length + 1))).map
          (fun b => passA (ctxOf base_case file_name vocab summary_row desc_map)
              (linesOf content) ++ b)
      else .ok (passA (ctxOf base_case file_name vocab summary_row desc_map)
          (linesOf content)) := by
    unfold parse_events_table
    by_cases hlt : (passA (ctxOf base_case file_name vocab summary_row desc_map)
        (linesOf content)).length < 30
    · simp only [hlt, if_true]
      cases h : passB (ctxOf base_case file_name vocab summary_row desc_map)
          (linesOf content)
          (initB ((passA (ctxOf base_case file_name vocab summary_row desc_map)
            (linesOf content)).length + 1)) with
      | ok b => simp [h, Except.map]
      | error e => simp [h, Except.map]
    · simp only [hlt, if_false]
  refine ⟨key, fun h30 => ?_, fun h29 => ?_, fun out hout => ?_⟩
  · rw [key, h30]
    norm_num
  · rw [key, h29]
    norm_num
  · rw [key] at hout
    by_cases hlt : (passA (ctxOf base_case file_name vocab summary_row desc_map)
        (linesOf content)).length < 30
    · rw [if_pos hlt] at hout
      cases h : passB (ctxOf base_case file_name vocab summary_row desc_map)
          (linesOf content)
          (initB ((passA (ctxOf base_case file_name vocab summary_row desc_map)
            (linesOf content)).length + 1)) with
      | ok b =>
        rw [h] at hout
        simp only [Except.map] at hout
        exact ⟨b, (Except.ok.injEq _ _ ▸ hout).symm⟩
      | error e =>
        rw [h] at hout
        simp [Except.map] at hout
    · rw [if_neg hlt] at hout
      exact ⟨[], by simpa using hout.symm⟩

/-- A concrete `n`-row events table used as witness input. -/
def repRows (n : Nat) : List Char :=
  joinSep ("\n".data) (List.replicate n ("01/06/2025 PETITION 1".data))

theorem parse_events_table_pass_gate_witness :
    (passA (ctxOf [] ("f.txt".data) [] [] []) (linesOf (repRows 30))).length = 30 ∧
    parse_events_table (repRows 30) [] [] [] ("f.txt".data) [] =
      .ok (passA (ctxOf [] ("f.txt".data) [] [] []) (linesOf (repRows 30))) ∧
    (passA (ctxOf [] ("f.txt".data) [] [] []) (linesOf (repRows 29))).length = 29 ∧
    parse_events_table (repRows 29) [] [] [] ("f.txt".data) [] =
      (passB (ctxOf [] ("f.txt".data) [] [] []) (linesOf (repRows 29)) (initB 30)).map
        (fun b => passA (ctxOf [] ("f.txt".data) [] [] []) (linesOf (repRows 29)) ++ b) ∧
    (∃ t, passA (ctxOf [] ("f.txt".data) [] [] []) (linesOf (repRows 29)) ++ ([] : List ParsedDoc) =
      passA (ctxOf [] ("f.txt".data) [] [] []) (linesOf (repRows 29)) ++ t) :=
  ⟨by rfl,
   (parse_events_table_pass_gate (repRows 30) [] ("f.txt".data) [] [] []).2.1 (by rfl),
   by rfl,
   (parse_events_table_pass_gate (repRows 29) [] ("f.txt".data) [] [] []).2.2.1 (by rfl),
   (parse_events_table_pass_gate (repRows 29) [] ("f.txt".data) [] [] []).2.2.2
     (passA (ctxOf [] ("f.txt".data) [] [] []) (linesOf (repRows 29)) ++ []) (by rfl)⟩

/-- C5: for a document containing `events` (case-insensitively), when the
table strategy returns fewer than 10 records the orchestrator discards them
all, emits exactly the single fallback record, reports
`strategy_used = fallback` and appends the warning naming the table
strategy and the discarded count; with at least 10 records the table output
is accepted with `strategy_used = table`. -/
theorem orchestrator_fallback_threshold (content file_name : List Char)
    (vocab desc_map : List (List Char × List Char))
    (ocr_summary : List (List Char × List (List Char × List Char)))
    (hev : substrOf ("events".data) (lowerStr content) = true)
    (tr : List ParsedDoc)
    (htr : parse_events_table content (case_number_of content) vocab
        (summary_row_of ocr_summary file_name) file_name desc_map = .ok tr) :
    (tr.length < 10 →
      parse_file_with_report content file_name vocab ocr_summary desc_map =
        .ok ([fallback_record content file_name vocab
              (summary_row_of ocr_summary file_name) desc_map],
          ⟨file_name, "fallback".data, 1, [warnMsg tr.length]⟩)) ∧
    (10 ≤ tr.length →
      parse_file_with_report content file_name vocab ocr_summary desc_map =
        .ok (tr, ⟨file_name, "table".data, tr.length, []⟩)) := by
  unfold parse_file_with_report
  rw [if_pos hev]
  simp only [htr]
  constructor
  · intro hlt
    rw [if_neg (by omega : ¬ (10 ≤ tr.length))]
  · intro hge
    rw [if_pos hge]

/-- Concrete witness input for the fallback side of C5 (1 table record). -/
def c5small : List Char := "events\n01/06/2025 PETITION 1".data

/-- Concrete witness input for the accept side of C5 (10 table records). -/
def c5big : List Char := "Events\n".data ++ repRows 10

/-- The table-strategy output on the two C5 witness inputs (Pass A plus an
empty Pass B contribution). -/
def c5tr (c : List Char) : List ParsedDoc :=
  passA (ctxOf (case_number_of c) ("f.txt".data) [] [] []) (linesOf c) ++ []

theorem orchestrator_fallback_threshold_witness :
    substrOf ("events".data) (lowerStr c5small) = true ∧
    (c5tr c5small).length < 10 ∧
    parse_file_with_report c5small ("f.txt".data) [] [] [] =
      .ok ([fallback_record c5small ("f.txt".data) [] [] []],
        ⟨"f.txt".data, "fallback".data, 1, [warnMsg (c5tr c5small).length]⟩) ∧
    substrOf ("events".data) (lowerStr c5big) = true ∧
    10 ≤ (c5tr c5big).length ∧
    parse_file_with_report c5big ("f.txt".data) [] [] [] =
      .ok (c5tr c5big, ⟨"f.txt".data, "table".data, (c5tr c5big).length, []⟩) :=
  ⟨by rfl, by decide,
   (orchestrator_fallback_threshold c5small ("f.txt".data) [] [] []
      (by rfl) (c5tr c5small) (by rfl)).1 (by decide),
   by rfl, by decide,
   (orchestrator_fallback_threshold c5big ("f.txt".data) [] [] []
      (by rfl) (c5tr c5big) (by rfl)).2 (by decide)⟩

/-- A nonempty joined note list starts with its first note. -/
theorem joinSep_head_append (sep x : List Char) (xs : List (List Char)) :
    ∃ t, joinSep sep (x :: xs) = x ++ t := by
  cases xs with
  | nil => exact ⟨[], by simp [joinSep]⟩
  | cons y ys => exact ⟨sep ++ joinSep sep (y :: ys), by simp [joinSep]⟩

/-- Any record in the output of `emit_event` was already in the state or is
a block record with a nonempty date. -/
theorem mem_emit_event_out (ctx : TableCtx) (dt nt ft : List Char) (st : BState)
    (r : ParsedDoc) (hr : r ∈ (emit_event ctx dt nt ft st).out) :
    r ∈ st.out ∨ ∃ f d n, f ≠ [] ∧ r = mkBlockRecord ctx f d n := by
  unfold emit_event at hr
  cases ft with
  | nil => exact Or.inl hr
  | cons c cs =>
    simp only [List.isEmpty_cons, Bool.false_eq_true, if_false, List.mem_append,
      List.mem_singleton] at hr
    refine hr.imp_right fun h => ⟨c :: cs, _, _, by simp, h⟩

/-- Output-shape invariant of the Pass B loop: every record of a
successful run was either already accumulated or is a `mkBlockRecord` with
a nonempty `filed_date`. -/
theorem passBGo_out_shape (ctx : TableCtx) (fuel : Nat) :
    ∀ (ls : List (List Char)) (st : BState) (out : List ParsedDoc),
      passBGo ctx fuel ls st = .ok out →
      ∀ r ∈ out, r ∈ st.out ∨ ∃ f d n, f ≠ [] ∧ r = mkBlockRecord ctx f d n := by
  induction fuel with
  | zero =>
    intro ls st out h r hr
    cases ls with
    | nil => cases h; exact Or.inl hr
    | cons l t => cases h; exact Or.inl hr
  | succ fuel ih =>
    intro ls st out h r hr
    cases ls with
    | nil => cases h; exact Or.inl hr
    | cons l t =>
      simp only [passBGo] at h
      repeat' split at h
      all_goals try exact Except.noConfusion h
      all_goals
        (rcases ih _ _ _ h r hr with hm | hs
         · first
           | exact Or.inl hm
           | (rcases mem_emit_event_out _ _ _ _ _ r hm with hm2 | hs2
              · exact Or.inl hm2
              · exact Or.inr hs2)
         · exact Or.inr hs)

/-- Every Pass A record is a `mkRowRecord` (fold invariant). -/
theorem mem_passA_foldl_shape (ctx : TableCtx) :
    ∀ (lines : List (List Char)) (acc : List ParsedDoc),
      (∀ r ∈ acc, ∃ k d de n, r = mkRowRecord ctx k d de n) →
      ∀ r ∈ lines.foldl (passAStep ctx) acc,
        ∃ k d de n, r = mkRowRecord ctx k d de n := by
  intro lines
  induction lines with
  | nil => intro acc hacc r hr; exact hacc r hr
  | cons l t ih =>
    intro acc hacc r hr
    refine ih (passAStep ctx acc l) ?_ r hr
    intro r' hr'
    unfold passAStep at hr'
    split at hr'
    · exact hacc r' hr'
    · rcases List.mem_append.mp hr' with hold | hnew
      · exact hacc r' hold
      · exact ⟨acc.length, _, _, _, List.mem_singleton.mp hnew⟩

/-- Every Pass A record is a `mkRowRecord`. -/
theorem mem_passA_shape (ctx : TableCtx) (lines : List (List Char))
    (r : ParsedDoc) (hr : r ∈ passA ctx lines) :
    ∃ k d de n, r = mkRowRecord ctx k d de n :=
  mem_passA_foldl_shape ctx lines [] (by simp) r hr

/-- C10: Pass B never emits a record with an empty `filed_date`; when the
popped queue entry and `current_date` both fail to supply a date,
`emit_event` is a no-op (the description/event-number pair is silently
dropped, no record is emitted and `seq` is not advanced). -/
theorem passB_no_empty_filed_date :
    (∀ (ctx : TableCtx) (lines : List (List Char)) (seq : Nat)
        (out : List ParsedDoc),
      passB ctx lines (initB seq) = .ok out →
      ∀ r ∈ out, r.filed_date ≠ []) ∧
    (∀ (ctx : TableCtx) (dt nt : List Char) (st : BState),
      emit_event ctx dt nt [] st = st) := by
  constructor
  · intro ctx lines seq out h r hr
    rcases passBGo_out_shape ctx lines.length lines (initB seq) out h r hr with hm | hs
    · simp [initB] at hm
    · rcases hs with ⟨f, d, n, hf, rfl⟩
      exact hf
  · intro ctx dt nt st
    rfl

/-- Witness input for C10: one block-parsed event. -/
def c10text : List Char :=
  "Event Date\n01/06/2025\nDescription\nX\nEvent No.\n4".data

theorem passB_no_empty_filed_date_witness :
    passB (ctxOf [] ("f.txt".data) [] [] []) (linesOf c10text) (initB 1) =
      .ok [mkBlockRecord (ctxOf [] ("f.txt".data) [] [] [])
        ("01/06/2025".data) ("X".data) ("4".data)] ∧
    (mkBlockRecord (ctxOf [] ("f.txt".data) [] [] [])
        ("01/06/2025".data) ("X".data) ("4".data)).filed_date ≠ [] ∧
    emit_event (ctxOf [] ("f.txt".data) [] [] []) ("a".data) ("1".data) []
        (initB 1) = initB 1 :=
  ⟨by rfl,
   passB_no_empty_filed_date.1 (ctxOf [] ("f.txt".data) [] [] [])
     (linesOf c10text) 1
     [mkBlockRecord (ctxOf [] ("f.txt".data) [] [] [])
       ("01/06/2025".data) ("X".data) ("4".data)] (by rfl)
     (mkBlockRecord (ctxOf [] ("f.txt".data) [] [] [])
       ("01/06/2025".data) ("X".data) ("4".data)) (by simp),
   passB_no_empty_filed_date.2 (ctxOf [] ("f.txt".data) [] [] [])
     ("a".data) ("1".data) (initB 1)⟩

/-- C2 counterexample: the single-document extractor's record has
`source_view = "ocr_pipeline"` — not `SingleDocument`, and not any of the
three values {SingleDocument, TableRow, TableBlock} named by the claim.
Concrete input: the document text `"hello"`. -/
theorem source_view_counterexample :
    parse_file_with_report ("hello".data) ("doc1.txt".data) [] [] [] =
      .ok ([fallback_record ("hello".data) ("doc1.txt".data) [] [] []],
        ⟨"doc1.txt".data, "fallback".data, 1, []⟩) ∧
    (fallback_record ("hello".data) ("doc1.txt".data) [] [] []).source_view =
      "ocr_pipeline".data ∧
    "ocr_pipeline".data ≠ "SingleDocument".data ∧
    "ocr_pipeline".data ≠ "TableRow".data ∧
    "ocr_pipeline".data ≠ "TableBlock".data :=
  ⟨by rfl, by rfl, by decide, by decide, by decide⟩

/-- C2 amended: every record of either table pass carries
`source_view = "MiCourt_EventList"` and the single-document extractor
emits exactly one record with `source_view = "ocr_pipeline"` and empty
`event_id`; so `source_view` separates table-strategy records from
single-document records but does not distinguish the two table passes —
their `notes` fields do, beginning with `parsed from events table (row)`
resp. `(block)`. -/
theorem source_view_identifies_strategy :
    (∀ (ctx : TableCtx) (lines : List (List Char)) (r : ParsedDoc),
      r ∈ passA ctx lines →
      r.source_view = "MiCourt_EventList".data ∧
        ∃ t, r.notes = "parsed from events table (row)".data ++ t) ∧
    (∀ (ctx : TableCtx) (lines : List (List Char)) (seq : Nat)
        (out : List ParsedDoc) (r : ParsedDoc),
      passB ctx lines (initB seq) = .ok out → r ∈ out →
      r.source_view = "MiCourt_EventList".data ∧
        ∃ t, r.notes = "parsed from events table (block)".data ++ t) ∧
    (∀ content file_name vocab summary_row desc_map,
      (fallback_record content file_name vocab summary_row desc_map).source_view =
        "ocr_pipeline".data ∧
      (fallback_record content file_name vocab summary_row desc_map).event_id = []) ∧
    (∀ content file_name vocab ocr_summary desc_map rows rep,
      parse_file_with_report content file_name vocab ocr_summary desc_map =
        .ok (rows, rep) →
      rep.strategy_used = "fallback".data →
      rows = [fallback_record content file_name vocab
        (summary_row_of ocr_summary file_name) desc_map]) := by
  refine ⟨?_, ?_, ?_, ?_⟩
  · intro ctx lines r hr
    rcases mem_passA_shape ctx lines r hr with ⟨k, d, de, n, rfl⟩
    exact ⟨rfl, joinSep_head_append _ _ _⟩
  · intro ctx lines seq out r h hr
    rcases passBGo_out_shape ctx lines.length lines (initB seq) out h r hr with hm | hs
    · simp [initB] at hm
    · rcases hs with ⟨f, d, n, hf, rfl⟩
      exact ⟨rfl, joinSep_head_append _ _ _⟩
  · intro content file_name vocab summary_row desc_map
    exact ⟨rfl, rfl⟩
  · intro content file_name vocab ocr_summary desc_map rows rep h hstrat
    unfold parse_file_with_report at h
    dsimp only at h
    split at h
    · cases htr : parse_events_table content (case_number_of content) vocab
          (summary_row_of ocr_summary file_name) file_name desc_map with
      | error e => rw [htr] at h; exact Except.noConfusion h
      | ok table_rows =>
        simp only [htr] at h
        by_cases hge : 10 ≤ table_rows.length
        · rw [if_pos hge] at h
          cases h
          have h2 : ("table".data : List Char) = "fallback".data := hstrat
          exact absurd h2 (by decide)
        · rw [if_neg hge] at h
          cases h
          rfl
    · cases h
      rfl

theorem source_view_identifies_strategy_witness :
    (mkRowRecord (ctxOf [] ("f.txt".data) [] [] []) 0 ("01/06/2025".data)
        ("PETITION".data) ("1".data)).source_view = "MiCourt_EventList".data ∧
    (mkBlockRecord (ctxOf [] ("f.txt".data) [] [] []) ("01/06/2025".data)
        ("X".data) ("4".data)).source_view = "MiCourt_EventList".data ∧
    (fallback_record ("hello".data) ("doc1.txt".data) [] [] []).source_view =
      "ocr_pipeline".data ∧
    (fallback_record ("hello".data) ("doc1.txt".data) [] [] []).event_id = [] ∧
    [fallback_record ("hello".data) ("doc1.txt".data) [] [] []] =
      [fallback_record ("hello".data) ("doc1.txt".data) []
        (summary_row_of [] ("doc1.txt".data)) []] :=
  ⟨(source_view_identifies_strategy.1 (ctxOf [] ("f.txt".data) [] [] [])
      [("01/06/2025 PETITION 1".data)]
      (mkRowRecord (ctxOf [] ("f.txt".data) [] [] []) 0 ("01/06/2025".data)
        ("PETITION".data) ("1".data)) (by decide)).1,
   (source_view_identifies_strategy.2.1 (ctxOf [] ("f.txt".data) [] [] [])
      (linesOf c10text) 1
      [mkBlockRecord (ctxOf [] ("f.txt".data) [] [] []) ("01/06/2025".data)
        ("X".data) ("4".data)]
      (mkBlockRecord (ctxOf [] ("f.txt".data) [] [] []) ("01/06/2025".data)
        ("X".data) ("4".data)) (by rfl) (by simp)).1,
   (source_view_identifies_strategy.2.2.1 ("hello".data) ("doc1.txt".data)
      [] [] []).1,
   (source_view_identifies_strategy.2.2.1 ("hello".data) ("doc1.txt".data)
      [] [] []).2,
   source_view_identifies_strategy.2.2.2 ("hello".data) ("doc1.txt".data)
      [] [] [] [fallback_record ("hello".data) ("doc1.txt".data) [] [] []]
      ⟨"doc1.txt".data, "fallback".data, 1, []⟩ (by rfl) (by rfl)⟩

/-! ### C7: row-strategy determinism, independent of inter-token spacing

The support lemmas compute the row regex symbolically on a line of the
shape `date ++ ' '*a ++ description ++ ' '*b ++ digit` for arbitrary
positive space counts `a`, `b`. -/

/-- `takeWhile` stops at the first non-space after a space run. -/
theorem takeWhile_replicate_space_cons (x : Char) (n : Nat) (l : List Char)
    (hx : pyIsSpace x = false) :
    (List.replicate n ' ' ++ x :: l).takeWhile pyIsSpace = List.replicate n ' ' := by
  induction n with
  | zero => simp [List.takeWhile_cons, hx]
  | succ n ih =>
    simp [List.replicate, List.takeWhile_cons, ih, show pyIsSpace ' ' = true from rfl]

/-- Dropping exactly the replicated prefix. -/
theorem drop_replicate_append (n : Nat) (c : Char) (l : List Char) :
    (List.replicate n c ++ l).drop n = l := by
  have h := List.drop_left (List.replicate n c) l
  simp only [List.length_replicate] at h
  exact h

/-- `dropWhile` distributes over an append whose left part survives. -/
theorem dropWhile_append_ne_nil (p : Char → Bool) (l1 l2 : List Char)
    (h : l1.dropWhile p ≠ []) :
    (l1 ++ l2).dropWhile p = l1.dropWhile p ++ l2 := by
  induction l1 with
  | nil => exact absurd rfl h
  | cons c t ih =>
    by_cases hc : p c
    · simp only [List.cons_append, List.dropWhile_cons, hc, if_true]
      simp only [List.dropWhile_cons, hc, if_true] at h
      exact ih h
    · simp [List.dropWhile_cons, hc]

/-- A list with an element failing the predicate survives `dropWhile`. -/
theorem dropWhile_ne_nil_of_mem (p : Char → Bool) (l : List Char)
    (h : ∃ c ∈ l, p c = false) : l.dropWhile p ≠ [] := by
  induction l with
  | nil => rcases h with ⟨c, hc, _⟩; cases hc
  | cons c t ih =>
    by_cases hc : p c
    · simp only [List.dropWhile_cons, hc, if_true]
      rcases h with ⟨c', hc', hp⟩
      rcases List.mem_cons.mp hc' with rfl | hmem
      · rw [hc] at hp; cases hp
      · exact ih ⟨c', hmem, hp⟩
    · simp [List.dropWhile_cons, hc]

/-- The head of `dropWhile p l` fails `p` and comes from `l`. -/
theorem head_dropWhile_false (p : Char → Bool) (l : List Char) (c : Char)
    (t : List Char) (h : l.dropWhile p = c :: t) : p c = false ∧ c ∈ l := by
  induction l with
  | nil => cases h
  | cons a l' ih =>
    by_cases ha : p a
    · rw [List.dropWhile_cons, if_pos ha] at h
      rcases ih h with ⟨h1, h2⟩
      exact ⟨h1, List.mem_cons_of_mem a h2⟩
    · rw [List.dropWhile_cons, if_neg ha] at h
      cases h
      exact ⟨by simpa using ha, List.mem_cons_self _ _⟩

/-- `\s+(\d+)\s*$` cannot match a suffix whose first non-space character
is not a digit. -/
theorem tailMatch_eq_none_of_head_nondigit (s : List Char)
    (h : ∀ c t, s.dropWhile pyIsSpace = c :: t → digitChar c = false) :
    tailMatch s = none := by
  cases s with
  | nil => rfl
  | cons c cs =>
    simp only [tailMatch]
    by_cases hc : pyIsSpace c
    · rw [if_pos hc]
      have hds : (c :: cs).dropWhile pyIsSpace = cs.dropWhile pyIsSpace := by
        rw [List.dropWhile_cons, if_pos hc]
      cases hcs : cs.dropWhile pyIsSpace with
      | nil => simp [hcs]
      | cons c' t' =>
        have hnd := h c' t' (by rw [hds, hcs])
        simp [hcs, List.takeWhile_cons, hnd]
    · rw [if_neg hc]

/-- `dropWhile` removes exactly a space run before a non-space. -/
theorem dropWhile_replicate_space_cons (x : Char) (b : Nat) (l : List Char)
    (hx : pyIsSpace x = false) :
    (List.replicate b ' ' ++ x :: l).dropWhile pyIsSpace = x :: l := by
  induction b with
  | zero => simp [List.dropWhile_cons, hx]
  | succ n ih =>
    simp only [List.replicate, List.cons_append, List.dropWhile_cons]
    rw [if_pos (show pyIsSpace ' ' = true from rfl)]
    exact ih

/-- The last element of a list is a member. -/
theorem mem_of_getLast?_eq (l : List Char) (cl : Char)
    (h : l.getLast? = some cl) : cl ∈ l := by
  have hx : cl ∈ l.getLast? := by rw [h]; simp [Option.mem_def]
  rcases List.mem_getLast?_eq_getLast hx with ⟨hne, rfl⟩
  exact List.getLast_mem hne

/-- `\s+(\d+)\s*$` matches a space run followed by one digit. -/
theorem tailMatch_replicate_digit (b : Nat) (dig : Char) (hb : b ≠ 0)
    (hdig : digitChar dig = true) (hds : pyIsSpace dig = false) :
    tailMatch (List.replicate b ' ' ++ [dig]) = some [dig] := by
  cases b with
  | zero => exact absurd rfl hb
  | succ b' =>
    have hrep : List.replicate (b' + 1) ' ' ++ [dig] =
        ' ' :: (List.replicate b' ' ' ++ [dig]) := by
      simp [List.replicate]
    rw [hrep]
    simp only [tailMatch]
    rw [if_pos (show pyIsSpace ' ' = true from rfl)]
    have hdw : (List.replicate b' ' ' ++ [dig]).dropWhile pyIsSpace = [dig] :=
      dropWhile_replicate_space_cons dig b' [] hds
    rw [hdw]
    simp [List.takeWhile_cons, hdig]

/-- The lazy `.+?` takes exactly the description when the description
contains no digit, starts and ends in non-space, and is followed by
spaces and a digit: no shorter prefix admits a `\s+(\d+)\s*$` tail. -/
theorem splitDescFrom_append (D : List Char) (b : Nat) (dig : Char)
    (hD : D ≠ [])
    (hnd : ∀ c ∈ D, digitChar c = false)
    (hlast : ∃ cl, D.getLast? = some cl ∧ pyIsSpace cl = false)
    (hb : b ≠ 0) (hdig : digitChar dig = true) (hds : pyIsSpace dig = false) :
    splitDescFrom (D ++ (List.replicate b ' ' ++ [dig])) = some (D, [dig]) := by
  induction D with
  | nil => exact absurd rfl hD
  | cons c D' ih =>
    cases D' with
    | nil =>
      have ht := tailMatch_replicate_digit b dig hb hdig hds
      simp [splitDescFrom, ht]
    | cons c2 D'' =>
      have hlast' : ∃ cl, (c2 :: D'').getLast? = some cl ∧ pyIsSpace cl = false := by
        rcases hlast with ⟨cl, hcl, hsp⟩
        rw [List.getLast?_cons_cons] at hcl
        exact ⟨cl, hcl, hsp⟩
      have hmem : ∃ cl ∈ (c2 :: D''), pyIsSpace cl = false := by
        rcases hlast' with ⟨cl, hcl, hsp⟩
        exact ⟨cl, mem_of_getLast?_eq _ cl hcl, hsp⟩
      have htn : tailMatch ((c2 :: D'') ++ (List.replicate b ' ' ++ [dig])) = none := by
        apply tailMatch_eq_none_of_head_nondigit
        intro ch th hdr
        have hne := dropWhile_ne_nil_of_mem pyIsSpace (c2 :: D'') hmem
        rw [dropWhile_append_ne_nil pyIsSpace (c2 :: D'') _ hne] at hdr
        cases hdd : (c2 :: D'').dropWhile pyIsSpace with
        | nil => exact absurd hdd hne
        | cons cdw tdw =>
          rw [hdd, List.cons_append] at hdr
          injection hdr with h1 _
          rcases head_dropWhile_false pyIsSpace (c2 :: D'') cdw tdw hdd with ⟨_, hmem'⟩
          rw [← h1]
          exact hnd cdw (List.mem_cons_of_mem c hmem')
      have ihr := ih (by simp)
        (fun c' hc' => hnd c' (List.mem_cons_of_mem c hc')) hlast'
      simp only [List.cons_append] at htn ihr ⊢
      generalize hg : c2 :: (D'' ++ (List.replicate b ' ' ++ [dig])) = rest at htn ihr ⊢
      simp [splitDescFrom, htn, ihr]

/-- The row regex on `date ++ ' '*a ++ description ++ ' '*b ++ digit`
captures exactly `(date, description, digit)` for every positive `a`, `b`:
the groups do not depend on the amount of inter-token whitespace. -/
theorem rowPatternMatch_spaced (dt D : List Char) (a b : Nat) (dig : Char)
    (hdth : ∃ ch tl, dt = ch :: tl ∧ pyIsSpace ch = false)
    (hdtp : ∀ r, parseRowDate (dt ++ r) = some (dt, r))
    (hDh : ∃ ch tl, D = ch :: tl ∧ pyIsSpace ch = false)
    (hnd : ∀ ch ∈ D, digitChar ch = false)
    (hlast : ∃ cl, D.getLast? = some cl ∧ pyIsSpace cl = false)
    (ha : a ≠ 0) (hb : b ≠ 0) (hdig : digitChar dig = true)
    (hds : pyIsSpace dig = false) :
    rowPatternMatch
        (dt ++ (List.replicate a ' ' ++ (D ++ (List.replicate b ' ' ++ [dig])))) =
      some (dt, D, [dig]) := by
  rcases hdth with ⟨ch, tl, rfl, hch⟩
  rcases hDh with ⟨cD, tD, hD, hcD⟩
  unfold rowPatternMatch
  dsimp only
  have hdw : ((ch :: tl) ++ (List.replicate a ' ' ++ (D ++ (List.replicate b ' ' ++ [dig])))).dropWhile pyIsSpace =
      (ch :: tl) ++ (List.replicate a ' ' ++ (D ++ (List.replicate b ' ' ++ [dig]))) := by
    rw [List.cons_append, List.dropWhile_cons, if_neg (by simp [hch])]
  rw [hdw, hdtp]
  dsimp only
  have htw : (List.replicate a ' ' ++ (D ++ (List.replicate b ' ' ++ [dig]))).takeWhile pyIsSpace =
      List.replicate a ' ' := by
    rw [hD, List.cons_append]
    exact takeWhile_replicate_space_cons cD a _ hcD
  rw [htw, List.length_replicate]
  cases a with
  | zero => exact absurd rfl ha
  | succ a' =>
    have hdrop : (List.replicate (a' + 1) ' ' ++ (D ++ (List.replicate b ' ' ++ [dig]))).drop (a' + 1) =
        D ++ (List.replicate b ' ' ++ [dig]) :=
      drop_replicate_append (a' + 1) ' ' _
    have hsplit := splitDescFrom_append D b dig (by rw [hD]; simp) hnd hlast hb hdig hds
    simp only [wsBacktrack, hdrop, hsplit]

/-- `filed_date` of a Pass A record is the captured date group. -/
theorem mkRowRecord_filed_date (ctx : TableCtx) (k : Nat) (dd de n : List Char) :
    (mkRowRecord ctx k dd de n).filed_date = dd := rfl

/-- `event_type_code` of a Pass A record depends only on the stripped
description and the override map. -/
theorem mkRowRecord_event_code (ctx : TableCtx) (k : Nat) (dd de n : List Char) :
    (mkRowRecord ctx k dd de n).event_type_code =
      resolve_event_code (if (stripStr de).isEmpty then "Unknown".data else stripStr de)
        ctx.desc_map := rfl

/-- C7: on the three-row input (dates 01/06/2025, 01/08/2025, 02/10/2025
with descriptions PETITION GUARDIANSHIP, NOTICE OF HEARING, ORDER
APPOINTING and event numbers 1, 2, 3), Pass A emits exactly 3 records, one
per row in row order, whose `filed_date` are the three dates and whose
`event_type_code` are PGII, NOH, OAF — for every positive amount of
whitespace between the date, description and event-number tokens, every
base case, file name, vocabulary and confidence flag (no override map). -/
theorem passA_three_rows_whitespace_independent
    (a b c d e f : Nat) (ha : a ≠ 0) (hb : b ≠ 0) (hc : c ≠ 0) (hd : d ≠ 0)
    (he : e ≠ 0) (hf : f ≠ 0)
    (base file_name : List Char) (vocab : List (List Char × List Char)) (lowc : Bool) :
    (passA ⟨base, file_name, vocab, lowc, []⟩
        ["01/06/2025".data ++ (List.replicate a ' ' ++ ("PETITION GUARDIANSHIP".data ++ (List.replicate b ' ' ++ ['1']))),
         "01/08/2025".data ++ (List.replicate c ' ' ++ ("NOTICE OF HEARING".data ++ (List.replicate d ' ' ++ ['2']))),
         "02/10/2025".data ++ (List.replicate e ' ' ++ ("ORDER APPOINTING".data ++ (List.replicate f ' ' ++ ['3'])))]).map
      (fun r => (r.filed_date, r.event_type_code)) =
      [("01/06/2025".data, "PGII".data), ("01/08/2025".data, "NOH".data),
       ("02/10/2025".data, "OAF".data)] := by
  have m1 := rowPatternMatch_spaced ("01/06/2025".data) ("PETITION GUARDIANSHIP".data)
    a b '1' ⟨'0', _, rfl, by decide⟩ (fun r => rfl) ⟨'P', _, rfl, by decide⟩
    (by decide) ⟨'P', by decide, by decide⟩ ha hb (by decide) (by decide)
  have m2 := rowPatternMatch_spaced ("01/08/2025".data) ("NOTICE OF HEARING".data)
    c d '2' ⟨'0', _, rfl, by decide⟩ (fun r => rfl) ⟨'N', _, rfl, by decide⟩
    (by decide) ⟨'G', by decide, by decide⟩ hc hd (by decide) (by decide)
  have m3 := rowPatternMatch_spaced ("02/10/2025".data) ("ORDER APPOINTING".data)
    e f '3' ⟨'0', _, rfl, by decide⟩ (fun r => rfl) ⟨'O', _, rfl, by decide⟩
    (by decide) ⟨'G', by decide, by decide⟩ he hf (by decide) (by decide)
  simp only [passA, List.foldl, passAStep, m1, m2, m3, List.nil_append,
    List.length_nil, List.length_cons, List.length_append, List.map,
    mkRowRecord_filed_date, mkRowRecord_event_code]
  decide

theorem passA_three_rows_whitespace_independent_witness :
    (passA ⟨[], "f.txt".data, [], false, []⟩
        ["01/06/2025  PETITION GUARDIANSHIP   1".data,
         "01/08/2025  NOTICE OF HEARING       2".data,
         "02/10/2025  ORDER APPOINTING        3".data]).map
      (fun r => (r.filed_date, r.event_type_code)) =
      [("01/06/2025".data, "PGII".data), ("01/08/2025".data, "NOH".data),
       ("02/10/2025".data, "OAF".data)] :=
  passA_three_rows_whitespace_independent 2 3 2 7 2 8
    (by decide) (by decide) (by decide) (by decide) (by decide) (by decide)
    [] ("f.txt".data) [] false
